import Mathlib

/-!
# FootyBot core components: shallow embedding and verification

This file embeds, in Lean 4, the reusable core of the FootyBot repository
(`src/api/football_api.py`, `src/utils/decorators.py`,
`src/database/supabase_client.py`) and proves or refutes the specification
claims about it.

Conventions of the embedding:
- Python floats and timestamps are modelled as exact rationals `ℚ`; calendar
  dates as integers `ℤ`.
- Python dictionaries are modelled as association lists in insertion order
  (new keys appended at the end, assignment to an existing key replaces the
  value in place), matching CPython dict iteration order.
- Raising an exception is modelled with `Except` or with an `Option` error
  component threaded next to the mutated state.
-/

namespace FootyBot

/-! ## Token bucket rate limiter

Embeds `TokenBucketRateLimiter` of `src/api/football_api.py` (lines 40-145).
The per-minute refill period is hard-coded to 60 seconds in the source; the
per-day bucket is not continuously refilled but reset to full capacity when
the calendar date advances. -/

structure TokenBucketRateLimiter where
  per_minute : ℕ
  per_day : ℕ
  minute_tokens : ℚ
  minute_last_update : ℚ
  day_tokens : ℚ
  day_start : ℤ
  day_last_update : ℚ
  minute_requests : ℕ
  day_requests : ℕ
deriving Repr, DecidableEq

/-- Constructor `TokenBucketRateLimiter.__init__`: both buckets start full,
both last-update stamps at the construction time, counters at zero. -/
def TokenBucketRateLimiter.init (per_minute per_day : ℕ) (now : ℚ) (today : ℤ) :
    TokenBucketRateLimiter where
  per_minute := per_minute
  per_day := per_day
  minute_tokens := per_minute
  minute_last_update := now
  day_tokens := per_day
  day_start := today
  day_last_update := now
  minute_requests := 0
  day_requests := 0

/-- `TokenBucketRateLimiter._refill_tokens`: the per-minute bucket gains
`time_passed * per_minute / 60` tokens capped at `per_minute`; the per-day
bucket is reset to full only when the current date is past `day_start`. -/
def TokenBucketRateLimiter.refill_tokens (s : TokenBucketRateLimiter)
    (now : ℚ) (current_date : ℤ) : TokenBucketRateLimiter :=
  let s1 := { s with
    minute_tokens :=
      min (s.per_minute : ℚ)
        (s.minute_tokens + (now - s.minute_last_update) * s.per_minute / 60)
    minute_last_update := now }
  if s1.day_start < current_date then
    { s1 with
      day_tokens := (s1.per_day : ℚ)
      day_requests := 0
      day_start := current_date
      day_last_update := now }
  else s1

/-- The two `RateLimitExceededError` raises of `acquire`: the daily one
carries no wait time in its message, the per-minute one carries a wait time. -/
inductive AcquireError
  | daily
  | perMinute (wait_time : ℚ)
deriving Repr, DecidableEq

/-- `TokenBucketRateLimiter.acquire`: refill, then fail on `day_tokens < 1`,
then fail on `minute_tokens < 1` with wait time
`(1 - minute_tokens) * 60 / per_minute`, otherwise consume one token from each
bucket. The first component is the limiter state after the call (the refill
mutation persists even when the call raises). -/
def TokenBucketRateLimiter.acquire (s : TokenBucketRateLimiter)
    (now : ℚ) (current_date : ℤ) : TokenBucketRateLimiter × Option AcquireError :=
  let s1 := s.refill_tokens now current_date
  if s1.day_tokens < 1 then
    (s1, some .daily)
  else if s1.minute_tokens < 1 then
    (s1, some (.perMinute ((1 - s1.minute_tokens) * 60 / s1.per_minute)))
  else
    ({ s1 with
        minute_tokens := s1.minute_tokens - 1
        day_tokens := s1.day_tokens - 1
        minute_requests := s1.minute_requests + 1
        day_requests := s1.day_requests + 1 }, none)

/-- The limiter state after `n` consecutive `acquire` calls, all issued at the
same timestamp `now` on the same date (rapid back-to-back calls). -/
def TokenBucketRateLimiter.acquireRep (s : TokenBucketRateLimiter)
    (now : ℚ) (current_date : ℤ) : ℕ → TokenBucketRateLimiter
  | 0 => s
  | n + 1 => ((s.acquireRep now current_date n).acquire now current_date).1

/-- The spec's per-window refill formula, stated verbatim from the spec text:
`tokens = min(capacity, tokens + elapsed_since_last_refill * capacity /
refill_period)`. Used only to compare the spec's description against the
behaviour of the embedded source code. -/
def specWindowRefill (capacity tokens elapsed refill_period : ℚ) : ℚ :=
  min capacity (tokens + elapsed * capacity / refill_period)

/-! ## Retry wrapper

Embeds the `retry` decorator of `src/utils/decorators.py` (lines 21-68).
The wrapped operation is a function from the attempt number (1-based) to an
`Except` outcome; `retryable e` models `isinstance(e, exceptions)` for the
decorator's `exceptions` tuple. The trace records the outcome (`none` models
the Python wrapper falling off the loop and returning `None`, which happens
only when `max_attempts = 0`), the number of invocations of the operation,
and the list of sleep durations in order. -/

structure RetryResult (α ε : Type) where
  outcome : Option (Except ε α)
  calls : ℕ
  sleeps : List ℚ
deriving Repr

/-- The `for attempt in range(1, max_attempts + 1)` loop of `retry`, with
`rem` remaining iterations, current attempt number `attempt` and current
delay `current_delay`. On success return; on a retryable failure raise if
`attempt == max_attempts`, otherwise sleep `current_delay`, multiply the
delay by `backoff` and continue; a non-retryable failure is not caught by
the `except exceptions` clause and propagates at once. -/
def retryFrom {α ε : Type} (op : ℕ → Except ε α) (retryable : ε → Bool)
    (backoff : ℚ) (max_attempts : ℕ) :
    ℕ → ℕ → ℚ → RetryResult α ε
  | 0, _, _ => ⟨none, 0, []⟩
  | rem + 1, attempt, current_delay =>
    match op attempt with
    | .ok a => ⟨some (.ok a), 1, []⟩
    | .error e =>
      if retryable e then
        if attempt = max_attempts then ⟨some (.error e), 1, []⟩
        else
          let r := retryFrom op retryable backoff max_attempts rem (attempt + 1)
            (current_delay * backoff)
          ⟨r.outcome, r.calls + 1, current_delay :: r.sleeps⟩
      else ⟨some (.error e), 1, []⟩

/-- The decorated call: run the loop from attempt 1 with the policy's initial
delay and `max_attempts` iterations available. -/
def retryExecute {α ε : Type} (op : ℕ → Except ε α) (retryable : ε → Bool)
    (max_attempts : ℕ) (delay backoff : ℚ) : RetryResult α ε :=
  retryFrom op retryable backoff max_attempts max_attempts 1 delay

/-! ## API client request path

Embeds the error dispatch of `APIFootballClient._make_request`
(`src/api/football_api.py`, lines 220-293) and the exception-class hierarchy
that its `@retry(..., exceptions=(requests.exceptions.RequestException,))`
decorator filters on. `APIFootballError` subclasses `Exception` directly, so
neither it nor its subclasses `AuthenticationError` and
`RateLimitExceededError` is a `RequestException`. -/

/-- The Python exception classes that occur around `_make_request`. -/
inductive PyExcKind
  | exception
  | requestException
  | timeoutExc
  | apiFootballError
  | authenticationError
  | rateLimitExceededError
deriving Repr, DecidableEq

/-- `isinstance(e, (requests.exceptions.RequestException,))`: only
`RequestException` itself and its subclass `Timeout` qualify; the
`APIFootballError` family subclasses `Exception` directly. -/
def PyExcKind.isRequestExceptionInstance : PyExcKind → Bool
  | .requestException => true
  | .timeoutExc => true
  | _ => false

/-- An exception value as raised by `_make_request`: its class and message. -/
structure RaisedExc where
  cls : PyExcKind
  msg : String
deriving Repr, DecidableEq

/-- Abstract HTTP response: status code, and whether `data.get('errors')` is
truthy when the body is parsed as JSON. -/
structure HttpResponse where
  status_code : ℕ
  has_errors : Bool
deriving Repr, DecidableEq

/-- What `self.session.get(...)` does on a given call: return a response,
raise `requests.exceptions.Timeout`, or raise some other
`requests.exceptions.RequestException`. -/
inductive HttpEvent
  | response (r : HttpResponse)
  | timeout
  | requestFailure
deriving Repr, DecidableEq

/-- The body of `_make_request` after the local limiter has admitted the
call: status 200 without error payload returns the data; 200 with an error
payload raises `APIFootballError`; 401 raises `AuthenticationError`; 429
raises `RateLimitExceededError`; any other status raises `APIFootballError`.
A `Timeout` from the session is caught and re-raised as
`APIFootballError("Request timeout")`; any other `RequestException` is caught
and re-raised as `APIFootballError("Request failed: ...")`. -/
def makeRequestBody : HttpEvent → Except RaisedExc HttpResponse
  | .response r =>
    if r.status_code = 200 then
      if r.has_errors then .error ⟨.apiFootballError, "API Error"⟩
      else .ok r
    else if r.status_code = 401 then
      .error ⟨.authenticationError, "Invalid API key"⟩
    else if r.status_code = 429 then
      .error ⟨.rateLimitExceededError, "API rate limit exceeded"⟩
    else
      .error ⟨.apiFootballError, "HTTP error"⟩
  | .timeout => .error ⟨.apiFootballError, "Request timeout"⟩
  | .requestFailure => .error ⟨.apiFootballError, "Request failed"⟩

/-- The decorated `_make_request`: the retry wrapper around the request body,
with the decorator's exact configuration `max_attempts=3, delay=1.0,
backoff=2.0, exceptions=(requests.exceptions.RequestException,)`. `events k`
is what the HTTP session does on the k-th attempt. -/
def makeRequest (events : ℕ → HttpEvent) : RetryResult HttpResponse RaisedExc :=
  retryExecute (fun k => makeRequestBody (events k))
    (fun e => e.cls.isRequestExceptionInstance) 3 1 2

/-! ## Decorator-level rate limiter

Embeds `RateLimiter` and the `rate_limit` decorator of
`src/utils/decorators.py` (lines 146-263). `buckets` is a
`defaultdict(lambda: {'tokens': 0, 'last_update': datetime.now()})`: a
previously unseen key is materialised with 0 tokens at the moment of first
access. -/

structure Bucket where
  tokens : ℚ
  last_update : ℚ
deriving Repr, DecidableEq

/-- Association-list lookup, first match wins (dict lookup). -/
def lookupA {β : Type} : List (String × β) → String → Option β
  | [], _ => none
  | (k, v) :: rest, key => if k = key then some v else lookupA rest key

/-- Association-list assignment: replace in place when the key is present,
append at the end otherwise (dict assignment with insertion order). -/
def updateA {β : Type} : List (String × β) → String → β → List (String × β)
  | [], key, v => [(key, v)]
  | (k, w) :: rest, key, v =>
    if k = key then (key, v) :: rest else (k, w) :: updateA rest key v

/-- Association-list deletion of a key (dict `del`). -/
def eraseA {β : Type} : List (String × β) → String → List (String × β)
  | [], _ => []
  | (k, w) :: rest, key =>
    if k = key then rest else (k, w) :: eraseA rest key

/-- `RateLimiter.allow_request`: materialise the bucket (0 tokens, stamped
`now`, on first access), refill `time_passed * max_calls / period` capped at
`max_calls`, stamp `last_update = now`; grant and consume a token iff at
least one token is available. Returns the decision and the updated buckets. -/
def allow_request (buckets : List (String × Bucket)) (key : String)
    (max_calls : ℕ) (period : ℚ) (now : ℚ) : Bool × List (String × Bucket) :=
  let bucket := (lookupA buckets key).getD ⟨0, now⟩
  let time_passed := now - bucket.last_update
  let tokens1 := min (max_calls : ℚ) (bucket.tokens + time_passed * max_calls / period)
  if 1 ≤ tokens1 then
    (true, updateA buckets key ⟨tokens1 - 1, now⟩)
  else
    (false, updateA buckets key ⟨tokens1, now⟩)

/-- `RateLimiter.wait_time`: zero when a token is available, otherwise
`(1 - tokens) * (period / max_calls)`. A missing key is materialised with 0
tokens by the defaultdict, giving `period / max_calls`. -/
def wait_time (buckets : List (String × Bucket)) (key : String)
    (max_calls : ℕ) (period : ℚ) (now : ℚ) : ℚ :=
  let bucket := (lookupA buckets key).getD ⟨0, now⟩
  if 1 ≤ bucket.tokens then 0
  else (1 - bucket.tokens) * (period / (max_calls : ℚ))

/-! ## TTL cache

Embeds the `cached` decorator of `src/utils/decorators.py` (lines 266-325).
The decorator keeps two dicts in lockstep: `cache` (key to value) and
`cache_times` (key to insertion timestamp). -/

structure CacheState (V : Type) where
  cache : List (String × V)
  cache_times : List (String × ℚ)
deriving Repr

/-- The empty cache created when the decorator is applied. -/
def CacheState.empty (V : Type) : CacheState V := ⟨[], []⟩

/-- `min(cache_times, key=cache_times.get)` on a nonempty dict: the key with
the smallest timestamp, the earliest in iteration (= insertion) order on
ties. -/
def minKeyAux (bk : String) (bt : ℚ) : List (String × ℚ) → String
  | [] => bk
  | (k, t) :: rest => if t < bt then minKeyAux k t rest else minKeyAux bk bt rest

/-- The oldest-inserted key of `cache_times`, `none` on an empty dict (where
Python's `min` would raise `ValueError`). -/
def oldestKey : List (String × ℚ) → Option String
  | [] => none
  | (k, t) :: rest => some (minKeyAux k t rest)

/-- One call of a `@cached(ttl, maxsize)`-wrapped function: on a hit (key
present and, when a ttl is set, `now - inserted_at < ttl`) return the stored
value without computing; on a miss compute, evict the oldest-inserted entry
first when `len(cache) >= maxsize`, then store the result stamped `now`.
`compute` is the value the wrapped function would produce on this call; the
`Bool` component records whether the wrapped function was invoked. -/
def cachedCall {V : Type} (ttl : Option ℚ) (maxsize : ℕ) (st : CacheState V)
    (key : String) (now : ℚ) (compute : V) : V × CacheState V × Bool :=
  let hit : Bool :=
    match lookupA st.cache key with
    | none => false
    | some _ =>
      match ttl with
      | none => true
      | some t => decide (now - (lookupA st.cache_times key).getD 0 < t)
  match lookupA st.cache key, hit with
  | some v, true => (v, st, false)
  | _, _ =>
    let st1 :=
      if maxsize ≤ st.cache.length then
        match oldestKey st.cache_times with
        | some ok => CacheState.mk (eraseA st.cache ok) (eraseA st.cache_times ok)
        | none => st
      else st
    (compute,
      ⟨updateA st1.cache key compute, updateA st1.cache_times key now⟩,
      true)

/-- The cache state after inserting entries number `0, ..., n-1`, where entry
`i` has key `k i`, computed value `v i` and is inserted at time `t i`. -/
def insertKeys {V : Type} (ttl : Option ℚ) (maxsize : ℕ)
    (k : ℕ → String) (v : ℕ → V) (t : ℕ → ℚ) : ℕ → CacheState V
  | 0 => CacheState.empty V
  | n + 1 =>
    (cachedCall ttl maxsize (insertKeys ttl maxsize k v t n) (k n) (t n) (v n)).2.1

/-! ## Supabase data-access client

Embeds the public data-access methods of `SupabaseClient`
(`src/database/supabase_client.py`). Every method body is one `try` block
whose `except Exception` clause returns a fixed default, so each method is
modelled as a total function of the underlying database call's outcome
(`Except String data`, the error being the exception message). -/

namespace SupabaseClient

/-- One row of the `deduct_point` RPC result; every field is read with
`result.get(field, default)`, so each is optional. -/
structure DeductRow where
  success : Option Bool
  points_type : Option String
  remaining_free : Option ℤ
  remaining_premium : Option ℤ
  show_warning : Option Bool
deriving Repr, DecidableEq

/-- The dictionary `deduct_point` returns to its caller. -/
structure DeductResult where
  allowed : Bool
  points_type : String
  free_remaining : ℤ
  premium_remaining : ℤ
  show_warning : Bool
deriving Repr, DecidableEq

/-- The all-false dictionary returned both when the RPC yields no data and
when it raises. -/
def deductDefault : DeductResult :=
  ⟨false, "none", 0, 0, false⟩

/-- One row of the `process_referral` RPC result. -/
structure ReferralRow where
  success : Option Bool
  referrer_id : Option ℤ
  new_user_points : Option ℤ
  referrer_points : Option ℤ
deriving Repr, DecidableEq

/-- The dictionary `process_referral` returns to its caller. -/
structure ReferralResult where
  success : Bool
  referrer_id : Option ℤ
  new_user_points : ℤ
  referrer_points : ℤ
deriving Repr, DecidableEq

/-- The failure dictionary returned both when the RPC yields no data and when
it raises. -/
def referralDefault : ReferralResult :=
  ⟨false, none, 0, 0⟩

/-- `get_user_by_telegram_id` (lines 49-70): on success return
`response.data if response.data else None`; on any exception return `None`. -/
def get_user_by_telegram_id {Row : Type} (resp : Except String (Option Row)) :
    Option Row :=
  match resp with
  | .ok d => d
  | .error _ => none

/-- `create_user` (lines 72-94): on success return
`response.data[0] if response.data else None`; on any exception `None`. -/
def create_user {Row : Type} (resp : Except String (List Row)) : Option Row :=
  match resp with
  | .ok rows => rows.head?
  | .error _ => none

/-- `update_user` (lines 96-118): `True` when the call returns, `False` on
any exception. -/
def update_user {Row : Type} (resp : Except String (List Row)) : Bool :=
  match resp with
  | .ok _ => true
  | .error _ => false

/-- `deduct_point` (lines 122-168): read the first RPC row with per-field
defaults; the all-false dictionary when the RPC yields no rows or raises. -/
def deduct_point (resp : Except String (List DeductRow)) : DeductResult :=
  match resp with
  | .ok (r :: _) =>
    ⟨r.success.getD false, r.points_type.getD "none", r.remaining_free.getD 0,
      r.remaining_premium.getD 0, r.show_warning.getD false⟩
  | .ok [] => deductDefault
  | .error _ => deductDefault

/-- `process_referral` (lines 170-217): read the first RPC row with per-field
defaults; the failure dictionary when the RPC yields no rows or raises. -/
def process_referral (resp : Except String (List ReferralRow)) : ReferralResult :=
  match resp with
  | .ok (r :: _) =>
    ⟨r.success.getD false, r.referrer_id, r.new_user_points.getD 0,
      r.referrer_points.getD 0⟩
  | .ok [] => referralDefault
  | .error _ => referralDefault

/-- `get_user_referrals` (lines 219-240): the rows on success, `[]` on any
exception. -/
def get_user_referrals {Row : Type} (resp : Except String (List Row)) :
    List Row :=
  match resp with
  | .ok rows => rows
  | .error _ => []

/-- `log_request` (lines 244-265): `True` when the insert returns, `False` on
any exception. -/
def log_request (resp : Except String Unit) : Bool :=
  match resp with
  | .ok _ => true
  | .error _ => false

/-- `get_user_preferences` (lines 269-290): like `get_user_by_telegram_id`
against the `user_preferences` table. -/
def get_user_preferences {Row : Type} (resp : Except String (Option Row)) :
    Option Row :=
  match resp with
  | .ok d => d
  | .error _ => none

/-- `update_user_preferences` (lines 292-321): try an update; when it affects
no rows, insert instead; `True` when whichever call ran returned, `False` on
any exception from either call. -/
def update_user_preferences {Row : Type} (upd : Except String (List Row))
    (ins : Except String Unit) : Bool :=
  match upd with
  | .error _ => false
  | .ok rows =>
    if rows.isEmpty then
      match ins with
      | .ok _ => true
      | .error _ => false
    else true

end SupabaseClient

/-! ## Helper lemmas for the retry wrapper -/

lemma range_map_geom (cd b : ℚ) (n : ℕ) :
    (List.range (n + 1)).map (fun i => cd * b ^ i) =
      cd :: (List.range n).map (fun i => cd * b * b ^ i) := by
  rw [List.range_succ_eq_map, List.map_cons, List.map_map]
  simp only [pow_zero, mul_one]
  congr 1
  apply List.map_congr_left
  intro i _
  simp only [Function.comp_apply, pow_succ]
  ring

lemma retryFrom_calls_pos {α ε : Type} (op : ℕ → Except ε α) (retryable : ε → Bool)
    (b : ℚ) (m rem attempt : ℕ) (cd : ℚ) (hrem : 1 ≤ rem) :
    1 ≤ (retryFrom op retryable b m rem attempt cd).calls := by
  obtain ⟨r, rfl⟩ : ∃ r, rem = r + 1 := ⟨rem - 1, by omega⟩
  cases h : op attempt with
  | ok a => simp [retryFrom, h]
  | error e =>
    by_cases hr : retryable e = true
    · by_cases ha : attempt = m
      · subst ha; simp [retryFrom, h, hr]
      · simp [retryFrom, h, hr, ha]
    · simp [retryFrom, h, hr]

/-- Invariant of the loop entered from `retryExecute`: whatever the operation
does, the recorded sleeps form the geometric sequence
`cd, cd*b, cd*b^2, ...`, one sleep per non-final invocation. -/
lemma retryFrom_sleeps_geometric {α ε : Type} (op : ℕ → Except ε α)
    (retryable : ε → Bool) (b : ℚ) (m : ℕ) :
    ∀ (rem attempt : ℕ) (cd : ℚ), attempt + rem = m + 1 →
      (retryFrom op retryable b m rem attempt cd).sleeps =
        (List.range ((retryFrom op retryable b m rem attempt cd).calls - 1)).map
          (fun i => cd * b ^ i) := by
  intro rem
  induction rem with
  | zero => intro attempt cd _; simp [retryFrom]
  | succ r ih =>
    intro attempt cd hinv
    cases h : op attempt with
    | ok a => simp [retryFrom, h]
    | error e =>
      by_cases hr : retryable e = true
      · by_cases ha : attempt = m
        · subst ha; simp [retryFrom, h, hr]
        · have hr1 : 1 ≤ r := by omega
          have hcalls := retryFrom_calls_pos op retryable b m r (attempt + 1) (cd * b) hr1
          have hrec := ih (attempt + 1) (cd * b) (by omega)
          simp only [retryFrom, h, hr, if_true, ha, if_false]
          simp only [hrec]
          rw [show (retryFrom op retryable b m r (attempt + 1) (cd * b)).calls + 1 - 1 =
            ((retryFrom op retryable b m r (attempt + 1) (cd * b)).calls - 1) + 1 from by omega]
          rw [range_map_geom]
      · simp [retryFrom, h, hr]

/-- When the operation fails with a retryable failure on every attempt, the
loop makes all its remaining invocations and ends by re-raising the failure
of attempt `m`. -/
lemma retryFrom_persistent_failure {α ε : Type} (op : ℕ → Except ε α)
    (retryable : ε → Bool) (b : ℚ) (m : ℕ) (f : ℕ → ε)
    (hop : ∀ n, op n = .error (f n)) (hr : ∀ n, retryable (f n) = true) :
    ∀ (rem attempt : ℕ) (cd : ℚ), 1 ≤ rem → attempt + rem = m + 1 →
      (retryFrom op retryable b m rem attempt cd).outcome = some (.error (f m)) ∧
      (retryFrom op retryable b m rem attempt cd).calls = rem := by
  intro rem
  induction rem with
  | zero => intro attempt cd h; omega
  | succ r ih =>
    intro attempt cd _ hinv
    by_cases hr0 : r = 0
    · subst hr0
      have ham : attempt = m := by omega
      subst ham
      simp [retryFrom, hop, hr]
    · have ha : attempt ≠ m := by omega
      have hrec := ih (attempt + 1) (cd * b) (by omega) (by omega)
      simp only [retryFrom, hop attempt, hr attempt, if_true, ha, if_false]
      exact ⟨hrec.1, by rw [hrec.2]⟩

/-- When the operation fails retryably on the `N` attempts starting at
`attempt` and succeeds on attempt `attempt + N`, with `N` strictly below the
remaining iteration count, the loop returns the success value after exactly
`N + 1` invocations and the geometric sleeps. -/
lemma retryFrom_transient_failure {α ε : Type} (op : ℕ → Except ε α)
    (retryable : ε → Bool) (b : ℚ) (m : ℕ) (f : ℕ → ε) (v : α) :
    ∀ (N rem attempt : ℕ) (cd : ℚ), N < rem → attempt + rem = m + 1 →
      (∀ j, j < N → op (attempt + j) = .error (f (attempt + j))) →
      (∀ j, j < N → retryable (f (attempt + j)) = true) →
      op (attempt + N) = .ok v →
      retryFrom op retryable b m rem attempt cd =
        ⟨some (.ok v), N + 1, (List.range N).map (fun i => cd * b ^ i)⟩ := by
  intro N
  induction N with
  | zero =>
    intro rem attempt cd hlt hinv _ _ hok
    obtain ⟨r, rfl⟩ : ∃ r, rem = r + 1 := ⟨rem - 1, by omega⟩
    rw [Nat.add_zero] at hok
    simp [retryFrom, hok]
  | succ N ih =>
    intro rem attempt cd hlt hinv hfail hretr hok
    obtain ⟨r, rfl⟩ : ∃ r, rem = r + 1 := ⟨rem - 1, by omega⟩
    have h0 : op attempt = .error (f attempt) := by
      have := hfail 0 (by omega)
      simpa using this
    have hr0 : retryable (f attempt) = true := by
      have := hretr 0 (by omega)
      simpa using this
    have ha : attempt ≠ m := by omega
    have hrec := ih r (attempt + 1) (cd * b) (by omega) (by omega)
      (fun j hj => by
        have := hfail (j + 1) (by omega)
        rw [show attempt + (j + 1) = attempt + 1 + j from by omega] at this
        exact this)
      (fun j hj => by
        have := hretr (j + 1) (by omega)
        rw [show attempt + (j + 1) = attempt + 1 + j from by omega] at this
        exact this)
      (by rw [show attempt + 1 + N = attempt + (N + 1) from by omega]; exact hok)
    simp only [retryFrom, h0, hr0, if_true, ha, if_false, hrec]
    rw [range_map_geom]

/-- Operations that never fail are invoked exactly once by the wrapper. -/
lemma retryExecute_of_total {α ε : Type} (v : α) (p : ε → Bool)
    (m : ℕ) (d b : ℚ) (hm : 1 ≤ m) :
    retryExecute (fun _ => Except.ok v) p m d b = ⟨some (.ok v), 1, []⟩ := by
  obtain ⟨r, rfl⟩ : ∃ r, m = r + 1 := ⟨m - 1, by omega⟩
  simp [retryExecute, retryFrom]

/-! ## Claim C3 -/

/-- C3: for every retry policy with `max_attempts ≥ 1` and every operation
that fails with a retryable failure kind on every call, `retry` invokes the
operation exactly `max_attempts` times and then re-raises the operation's
final failure unchanged (the failure of the last attempt); the wrapper never
swallows the final failure. -/
theorem retry_exhausts_attempts_on_persistent_failure {α ε : Type}
    (op : ℕ → Except ε α) (retryable : ε → Bool) (f : ℕ → ε)
    (m : ℕ) (d b : ℚ) (hm : 1 ≤ m)
    (hop : ∀ n, op n = .error (f n)) (hr : ∀ n, retryable (f n) = true) :
    (retryExecute op retryable m d b).outcome = some (.error (f m)) ∧
    (retryExecute op retryable m d b).calls = m :=
  retryFrom_persistent_failure op retryable b m f hop hr m 1 d hm (by omega)

/-- Witness for C3: an operation raising `"boom"` on every attempt under the
policy `max_attempts=3, delay=1, backoff=2` is invoked three times and the
wrapper re-raises `"boom"`. -/
theorem retry_exhausts_attempts_on_persistent_failure_witness :
    (retryExecute (fun _ => (Except.error "boom" : Except String ℕ))
        (fun _ => true) 3 1 2).outcome = some (.error "boom") ∧
    (retryExecute (fun _ => (Except.error "boom" : Except String ℕ))
        (fun _ => true) 3 1 2).calls = 3 :=
  retry_exhausts_attempts_on_persistent_failure
    (fun _ => Except.error "boom") (fun _ => true) (fun _ => "boom") 3 1 2
    (by norm_num) (fun _ => rfl) (fun _ => rfl)

/-! ## Claim C4 -/

/-- C4: for every retry policy with `max_attempts ≥ 1` and every
`N < max_attempts`, if the operation fails with a retryable failure kind on
its first `N` invocations and succeeds on the `(N+1)`-th, the wrapper returns
the success value and the operation is invoked exactly `N + 1` times. -/
theorem retry_returns_after_transient_failures {α ε : Type}
    (op : ℕ → Except ε α) (retryable : ε → Bool) (f : ℕ → ε) (v : α)
    (N m : ℕ) (d b : ℚ) (hN : N < m)
    (hfail : ∀ k, 1 ≤ k → k ≤ N → op k = .error (f k))
    (hretr : ∀ k, 1 ≤ k → k ≤ N → retryable (f k) = true)
    (hok : op (N + 1) = .ok v) :
    (retryExecute op retryable m d b).outcome = some (.ok v) ∧
    (retryExecute op retryable m d b).calls = N + 1 := by
  have h := retryFrom_transient_failure op retryable b m f v N m 1 d hN (by omega)
    (fun j hj => by
      have := hfail (1 + j) (by omega) (by omega)
      exact this)
    (fun j hj => by
      have := hretr (1 + j) (by omega) (by omega)
      exact this)
    (by rw [show 1 + N = N + 1 from by omega]; exact hok)
  rw [retryExecute, h]
  exact ⟨rfl, rfl⟩

/-- Witness for C4: failures on attempts 1 and 2, success with value 7 on
attempt 3, under `max_attempts=5`: the wrapper returns 7 after exactly 3
invocations. -/
theorem retry_returns_after_transient_failures_witness :
    (retryExecute (fun k => if k ≤ 2 then (Except.error "t" : Except String ℕ)
        else Except.ok 7) (fun _ => true) 5 1 2).outcome = some (.ok 7) ∧
    (retryExecute (fun k => if k ≤ 2 then (Except.error "t" : Except String ℕ)
        else Except.ok 7) (fun _ => true) 5 1 2).calls = 3 :=
  retry_returns_after_transient_failures
    (fun k => if k ≤ 2 then Except.error "t" else Except.ok 7)
    (fun _ => true) (fun _ => "t") 7 2 5 1 2 (by norm_num)
    (fun k h1 h2 => by simp [h2])
    (fun k _ _ => rfl)
    (by norm_num)

/-! ## Claim C6 -/

/-- C6: for every retry policy and every attempt `k > 1` that the wrapper
reaches, the sleep performed before attempt `k` is
`initial_delay * backoff ^ (k-2)`: the sleep list of any run is the
geometric sequence indexed by `List.range (calls - 1)`. In particular, with
`max_attempts=3, initial_delay=1, backoff=2`, failures on attempts 1 and 2
followed by success (value 7) on attempt 3 give sleeps `[1, 2]`, total slept
time `3`, and the wrapper returns the success value. -/
theorem retry_backoff_delay_formula :
    (∀ (α ε : Type) (op : ℕ → Except ε α) (retryable : ε → Bool)
        (m : ℕ) (d b : ℚ),
      (retryExecute op retryable m d b).sleeps =
        (List.range ((retryExecute op retryable m d b).calls - 1)).map
          (fun i => d * b ^ i)) ∧
    retryExecute (fun k => if k ≤ 2 then (Except.error "t" : Except String ℕ)
        else Except.ok 7) (fun _ => true) 3 1 2 =
      ⟨some (.ok 7), 3, [1, 2]⟩ ∧
    ([1, (2 : ℚ)].sum = 3) := by
  refine ⟨?_, ?_, by norm_num⟩
  · intro α ε op retryable m d b
    exact retryFrom_sleeps_geometric op retryable b m m 1 d (by omega)
  · have h := retryFrom_transient_failure
      (fun k => if k ≤ 2 then (Except.error "t" : Except String ℕ) else Except.ok 7)
      (fun _ => true) 2 3 (fun _ => "t") 7 2 3 1 1 (by norm_num) (by norm_num)
      (fun j hj => by
        have : 1 + j ≤ 2 := by omega
        simp [this])
      (fun j hj => rfl)
      (by norm_num)
    rw [retryExecute, h]
    norm_num [List.range_succ]

/-- Witness for C6: under the policy `max_attempts=4, delay=3, backoff=2`
with a persistently failing operation, the sleep list is exactly
`[3, 6, 12]`, matching the geometric formula. -/
theorem retry_backoff_delay_formula_witness :
    (retryExecute (fun _ => (Except.error "x" : Except String ℕ))
        (fun _ => true) 4 3 2).sleeps =
      (List.range ((retryExecute (fun _ => (Except.error "x" : Except String ℕ))
        (fun _ => true) 4 3 2).calls - 1)).map (fun i => 3 * 2 ^ i) :=
  retry_backoff_delay_formula.1 ℕ String
    (fun _ => Except.error "x") (fun _ => true) 4 3 2

/-! ## Claim C5 -/

/-- C5 counterexample: the claim says a 429 response raises a *retryable*
rate-limit error, a 5xx a *retryable* server error and a timeout a
*retryable* failure, where retryable means the surrounding retry policy
(`@retry(max_attempts=3, ..., exceptions=(RequestException,))`) retries it up
to its attempt limit. In the code every such failure is re-raised as an
`APIFootballError`-family exception, which is not a `RequestException`, so
the decorated `_make_request` invokes its body exactly once and propagates at
once: with a server that always answers 429 (resp. 500, resp. times out) the
body runs once, not three times. -/
theorem makeRequest_errors_not_retried_cex :
    (makeRequest (fun _ => .response ⟨429, false⟩)).calls = 1 ∧
    (makeRequest (fun _ => .response ⟨429, false⟩)).outcome =
      some (.error ⟨.rateLimitExceededError, "API rate limit exceeded"⟩) ∧
    (makeRequest (fun _ => .response ⟨500, false⟩)).calls = 1 ∧
    (makeRequest (fun _ => .response ⟨500, false⟩)).outcome =
      some (.error ⟨.apiFootballError, "HTTP error"⟩) ∧
    (makeRequest (fun _ => .timeout)).calls = 1 ∧
    (makeRequest (fun _ => .timeout)).outcome =
      some (.error ⟨.apiFootballError, "Request timeout"⟩) := by
  refine ⟨rfl, rfl, rfl, rfl, rfl, rfl⟩

/-- C5 amended: the status-code mapping to failure kinds holds as claimed
(200 without error payload succeeds, 200 with an error payload raises
`APIFootballError`, 401 raises `AuthenticationError`, 429 raises
`RateLimitExceededError`, any other status including 5xx raises
`APIFootballError`, and a network timeout is re-raised as
`APIFootballError`), but every failure escaping `_make_request` lies in the
`APIFootballError` hierarchy and is therefore outside the decorator's
`exceptions=(RequestException,)` tuple: no failure kind is retried, and every
failing first attempt makes the wrapper propagate after exactly one
invocation. -/
theorem makeRequest_status_mapping_amended :
    (∀ r : HttpResponse, r.status_code = 200 → r.has_errors = false →
      makeRequestBody (.response r) = .ok r) ∧
    (∀ r : HttpResponse, r.status_code = 200 → r.has_errors = true →
      makeRequestBody (.response r) = .error ⟨.apiFootballError, "API Error"⟩) ∧
    (∀ r : HttpResponse, r.status_code = 401 →
      makeRequestBody (.response r) = .error ⟨.authenticationError, "Invalid API key"⟩) ∧
    (∀ r : HttpResponse, r.status_code = 429 →
      makeRequestBody (.response r) = .error ⟨.rateLimitExceededError, "API rate limit exceeded"⟩) ∧
    (∀ r : HttpResponse, 500 ≤ r.status_code →
      makeRequestBody (.response r) = .error ⟨.apiFootballError, "HTTP error"⟩) ∧
    (makeRequestBody .timeout = .error ⟨.apiFootballError, "Request timeout"⟩) ∧
    (∀ (ev : HttpEvent) (e : RaisedExc), makeRequestBody ev = .error e →
      e.cls.isRequestExceptionInstance = false) ∧
    (∀ (events : ℕ → HttpEvent) (e : RaisedExc),
      makeRequestBody (events 1) = .error e →
      (makeRequest events).calls = 1 ∧
      (makeRequest events).outcome = some (.error e)) := by
  refine ⟨?_, ?_, ?_, ?_, ?_, rfl, ?_, ?_⟩
  · intro r h200 herr
    simp [makeRequestBody, h200, herr]
  · intro r h200 herr
    simp [makeRequestBody, h200, herr]
  · intro r h401
    simp [makeRequestBody, h401]
  · intro r h429
    simp [makeRequestBody, h429]
  · intro r h5xx
    have h1 : r.status_code ≠ 200 := by omega
    have h2 : r.status_code ≠ 401 := by omega
    have h3 : r.status_code ≠ 429 := by omega
    simp [makeRequestBody, h1, h2, h3]
  · intro ev e hraise
    cases ev with
    | response r =>
      by_cases h200 : r.status_code = 200
      · by_cases herr : r.has_errors = true
        · simp [makeRequestBody, h200, herr] at hraise
          rw [← hraise]
          rfl
        · simp [makeRequestBody, h200, herr] at hraise
      · by_cases h401 : r.status_code = 401
        · simp [makeRequestBody, h200, h401] at hraise
          rw [← hraise]
          rfl
        · by_cases h429 : r.status_code = 429
          · simp [makeRequestBody, h200, h401, h429] at hraise
            rw [← hraise]
            rfl
          · simp [makeRequestBody, h200, h401, h429] at hraise
            rw [← hraise]
            rfl
    | timeout =>
      simp [makeRequestBody] at hraise
      rw [← hraise]
      rfl
    | requestFailure =>
      simp [makeRequestBody] at hraise
      rw [← hraise]
      rfl
  · intro events e hraise
    have hnr : e.cls.isRequestExceptionInstance = false := by
      cases hev : events 1 with
      | response r =>
        rw [hev] at hraise
        by_cases h200 : r.status_code = 200
        · by_cases herr : r.has_errors = true
          · simp [makeRequestBody, h200, herr] at hraise
            rw [← hraise]; rfl
          · simp [makeRequestBody, h200, herr] at hraise
        · by_cases h401 : r.status_code = 401
          · simp [makeRequestBody, h200, h401] at hraise
            rw [← hraise]; rfl
          · by_cases h429 : r.status_code = 429
            · simp [makeRequestBody, h200, h401, h429] at hraise
              rw [← hraise]; rfl
            · simp [makeRequestBody, h200, h401, h429] at hraise
              rw [← hraise]; rfl
      | timeout =>
        rw [hev] at hraise
        simp [makeRequestBody] at hraise
        rw [← hraise]; rfl
      | requestFailure =>
        rw [hev] at hraise
        simp [makeRequestBody] at hraise
        rw [← hraise]; rfl
    constructor
    · simp [makeRequest, retryExecute, retryFrom, hraise, hnr]
    · simp [makeRequest, retryExecute, retryFrom, hraise, hnr]

/-- Witness for C5 amended: a bare 401 response maps to
`AuthenticationError`, and a server that always answers 401 is called
exactly once by the decorated request. -/
theorem makeRequest_status_mapping_amended_witness :
    makeRequestBody (.response ⟨401, false⟩) =
      .error ⟨.authenticationError, "Invalid API key"⟩ ∧
    (makeRequest (fun _ => .response ⟨401, false⟩)).calls = 1 :=
  ⟨makeRequest_status_mapping_amended.2.2.1 ⟨401, false⟩ rfl,
    (makeRequest_status_mapping_amended.2.2.2.2.2.2.2
      (fun _ => .response ⟨401, false⟩)
      ⟨.authenticationError, "Invalid API key"⟩ rfl).1⟩

/-! ## Claim C9 -/

/-- C9: every public data-access method of `SupabaseClient` catches every
exception from the underlying database call and returns its fixed default
(`None`, `False`, `[]`, or the all-false result dictionary) instead of
raising — each embedded method is a total function of the call's outcome,
and on the error outcome it returns the default. Consequently the
`@retry(max_attempts=3, delay=1.0)` wrapper (backoff defaulting to 2.0)
around each method never observes a failure and invokes the method body
exactly once per call. -/
theorem supabase_methods_never_raise :
    ∀ (Row : Type) (p : String → Bool) (msg : String)
      (r1 : Except String (Option Row)) (r2 : Except String (List Row))
      (r3 : Except String (List Row))
      (r4 : Except String (List SupabaseClient.DeductRow))
      (r5 : Except String (List SupabaseClient.ReferralRow))
      (r6 : Except String (List Row)) (r7 : Except String Unit)
      (r8 : Except String (Option Row)) (r9 : Except String (List Row))
      (r9i : Except String Unit),
      retryExecute (fun _ => Except.ok (SupabaseClient.get_user_by_telegram_id r1))
          p 3 1 2 =
        ⟨some (.ok (SupabaseClient.get_user_by_telegram_id r1)), 1, []⟩ ∧
      retryExecute (fun _ => Except.ok (SupabaseClient.create_user r2)) p 3 1 2 =
        ⟨some (.ok (SupabaseClient.create_user r2)), 1, []⟩ ∧
      retryExecute (fun _ => Except.ok (SupabaseClient.update_user r3)) p 3 1 2 =
        ⟨some (.ok (SupabaseClient.update_user r3)), 1, []⟩ ∧
      retryExecute (fun _ => Except.ok (SupabaseClient.deduct_point r4)) p 3 1 2 =
        ⟨some (.ok (SupabaseClient.deduct_point r4)), 1, []⟩ ∧
      retryExecute (fun _ => Except.ok (SupabaseClient.process_referral r5)) p 3 1 2 =
        ⟨some (.ok (SupabaseClient.process_referral r5)), 1, []⟩ ∧
      retryExecute (fun _ => Except.ok (SupabaseClient.get_user_referrals r6)) p 3 1 2 =
        ⟨some (.ok (SupabaseClient.get_user_referrals r6)), 1, []⟩ ∧
      retryExecute (fun _ => Except.ok (SupabaseClient.log_request r7)) p 3 1 2 =
        ⟨some (.ok (SupabaseClient.log_request r7)), 1, []⟩ ∧
      retryExecute (fun _ => Except.ok (SupabaseClient.get_user_preferences r8)) p 3 1 2 =
        ⟨some (.ok (SupabaseClient.get_user_preferences r8)), 1, []⟩ ∧
      retryExecute (fun _ => Except.ok (SupabaseClient.update_user_preferences r9 r9i))
          p 3 1 2 =
        ⟨some (.ok (SupabaseClient.update_user_preferences r9 r9i)), 1, []⟩ ∧
      SupabaseClient.get_user_by_telegram_id (Except.error msg) = (none : Option Row) ∧
      SupabaseClient.create_user (Except.error msg) = (none : Option Row) ∧
      SupabaseClient.update_user (Except.error msg : Except String (List Row)) = false ∧
      SupabaseClient.deduct_point (Except.error msg) = SupabaseClient.deductDefault ∧
      SupabaseClient.process_referral (Except.error msg) = SupabaseClient.referralDefault ∧
      SupabaseClient.get_user_referrals (Except.error msg) = ([] : List Row) ∧
      SupabaseClient.log_request (Except.error msg) = false ∧
      SupabaseClient.get_user_preferences (Except.error msg) = (none : Option Row) ∧
      SupabaseClient.update_user_preferences (Except.error msg : Except String (List Row)) r9i = false := by
  intro Row p msg r1 r2 r3 r4 r5 r6 r7 r8 r9 r9i
  refine ⟨retryExecute_of_total _ p 3 1 2 (by norm_num),
    retryExecute_of_total _ p 3 1 2 (by norm_num),
    retryExecute_of_total _ p 3 1 2 (by norm_num),
    retryExecute_of_total _ p 3 1 2 (by norm_num),
    retryExecute_of_total _ p 3 1 2 (by norm_num),
    retryExecute_of_total _ p 3 1 2 (by norm_num),
    retryExecute_of_total _ p 3 1 2 (by norm_num),
    retryExecute_of_total _ p 3 1 2 (by norm_num),
    retryExecute_of_total _ p 3 1 2 (by norm_num),
    rfl, rfl, rfl, rfl, rfl, rfl, rfl, rfl, rfl⟩

/-! ## Association-list lemmas -/

lemma lookupA_updateA_self {β : Type} (l : List (String × β)) (key : String) (v : β) :
    lookupA (updateA l key v) key = some v := by
  induction l with
  | nil => simp [updateA, lookupA]
  | cons p rest ih =>
    by_cases h : p.1 = key
    · simp [updateA, lookupA, h]
    · simp [updateA, lookupA, h, ih]

lemma lookupA_eq_none_of_forall {β : Type} (l : List (String × β)) (key : String)
    (h : ∀ p ∈ l, p.1 ≠ key) : lookupA l key = none := by
  induction l with
  | nil => rfl
  | cons p rest ih =>
    have hp : p.1 ≠ key := h p (List.mem_cons_self p rest)
    simp only [lookupA, hp, if_false]
    exact ih (fun q hq => h q (List.mem_cons_of_mem p hq))

lemma updateA_of_none {β : Type} (l : List (String × β)) (key : String) (v : β)
    (h : lookupA l key = none) : updateA l key v = l ++ [(key, v)] := by
  induction l with
  | nil => rfl
  | cons p rest ih =>
    by_cases hp : p.1 = key
    · simp [lookupA, hp] at h
    · simp only [lookupA, hp, if_false] at h
      simp [updateA, hp, ih h]

/-! ## Claim C10 -/

/-- C10: in the decorator-level `RateLimiter`, a bucket for a previously
unseen key is created with 0 tokens at the moment of first access, so the
first `allow_request` call for any key returns `False` regardless of how
long the process has been running; the subsequent `wait_time` is
`period / max_calls`, so the `rate_limit` decorator sleeps that long before
the first invocation of a freshly decorated function proceeds — and after
sleeping exactly that long the next `allow_request` is granted. -/
theorem rateLimiter_first_call_denied (buckets : List (String × Bucket))
    (key : String) (max_calls : ℕ) (period now : ℚ)
    (hmiss : lookupA buckets key = none) (hC : 1 ≤ max_calls) (hP : 0 < period) :
    (allow_request buckets key max_calls period now).1 = false ∧
    wait_time (allow_request buckets key max_calls period now).2 key
      max_calls period now = period / max_calls ∧
    (allow_request (allow_request buckets key max_calls period now).2 key
      max_calls period (now + period / max_calls)).1 = true := by
  have hC0 : (0 : ℚ) < (max_calls : ℚ) := by exact_mod_cast hC
  have htok : min ((max_calls : ℚ)) ((0 : ℚ) + (now - now) * max_calls / period) = 0 := by
    rw [sub_self, zero_mul, zero_div, add_zero]
    exact min_eq_right (by positivity)
  have hfirst : allow_request buckets key max_calls period now =
      (false, updateA buckets key ⟨0, now⟩) := by
    rw [allow_request]
    simp only [hmiss, Option.getD_none]
    rw [if_neg]
    · rw [htok]
    · rw [htok]; norm_num
  refine ⟨by rw [hfirst], ?_, ?_⟩
  · rw [hfirst, wait_time]
    simp only [lookupA_updateA_self, Option.getD_some]
    rw [if_neg (by norm_num)]
    ring
  · rw [hfirst, allow_request]
    simp only [lookupA_updateA_self, Option.getD_some]
    rw [if_pos]
    have : (0 : ℚ) + (now + period / max_calls - now) * max_calls / period = 1 := by
      field_simp
      ring
    rw [this]
    exact le_min (by exact_mod_cast hC) le_rfl

/-- Witness for C10: with an empty bucket table, key `"k"`, 10 calls per 60
seconds, the first request at time 0 is denied, the advertised wait is 6
seconds, and the request retried at time 6 is granted. -/
theorem rateLimiter_first_call_denied_witness :
    (allow_request [] "k" 10 60 0).1 = false ∧
    wait_time (allow_request [] "k" 10 60 0).2 "k" 10 60 0 = 60 / 10 ∧
    (allow_request (allow_request [] "k" 10 60 0).2 "k" 10 60 (0 + 60 / 10)).1 = true :=
  rateLimiter_first_call_denied [] "k" 10 60 0 rfl (by norm_num) (by norm_num)

/-! ## Claim C7 -/

/-- C7: calling the cache twice with the same key within `ttl` of the first
call invokes the wrapped function exactly once — the first call computes, the
second returns the stored value without computing — and a further call made
once `ttl` has elapsed since the stored entry's insertion computes again. -/
theorem cached_hit_within_ttl_recompute_after {V : Type} (v1 v2 v3 : V)
    (key : String) (T : ℚ) (M : ℕ) (hM : 1 ≤ M) (t1 t2 t3 : ℚ)
    (hwithin : t2 - t1 < T) (helapsed : T ≤ t3 - t1) :
    (cachedCall (some T) M (CacheState.empty V) key t1 v1).2.2 = true ∧
    (cachedCall (some T) M (CacheState.empty V) key t1 v1).1 = v1 ∧
    (cachedCall (some T) M
      (cachedCall (some T) M (CacheState.empty V) key t1 v1).2.1 key t2 v2).2.2 = false ∧
    (cachedCall (some T) M
      (cachedCall (some T) M (CacheState.empty V) key t1 v1).2.1 key t2 v2).1 = v1 ∧
    (cachedCall (some T) M
      (cachedCall (some T) M
        (cachedCall (some T) M (CacheState.empty V) key t1 v1).2.1 key t2 v2).2.1
      key t3 v3).2.2 = true := by
  have hM0 : ¬ (M ≤ 0) := by omega
  have hfirst : cachedCall (some T) M (CacheState.empty V) key t1 v1 =
      (v1, ⟨[(key, v1)], [(key, t1)]⟩, true) := by
    simp [cachedCall, CacheState.empty, lookupA, hM0, updateA]
  have hsecond : cachedCall (some T) M
      (⟨[(key, v1)], [(key, t1)]⟩ : CacheState V) key t2 v2 =
      (v1, ⟨[(key, v1)], [(key, t1)]⟩, false) := by
    simp [cachedCall, lookupA, hwithin]
  refine ⟨by rw [hfirst], by rw [hfirst], ?_, ?_, ?_⟩
  · rw [hfirst, hsecond]
  · rw [hfirst, hsecond]
  · rw [hfirst, hsecond]
    have hdec : decide (t3 - t1 < T) = false := decide_eq_false (by linarith)
    simp [cachedCall, lookupA, hdec]

/-- Witness for C7: a cache with `ttl = 5`, capacity 128: calls at times 0
and 2 with the same key compute once; a call at time 6 computes again. -/
theorem cached_hit_within_ttl_recompute_after_witness :
    (cachedCall (some 5) 128 (CacheState.empty ℕ) "k" 0 11).2.2 = true ∧
    (cachedCall (some 5) 128 (CacheState.empty ℕ) "k" 0 11).1 = 11 ∧
    (cachedCall (some 5) 128
      (cachedCall (some 5) 128 (CacheState.empty ℕ) "k" 0 11).2.1 "k" 2 22).2.2 = false ∧
    (cachedCall (some 5) 128
      (cachedCall (some 5) 128 (CacheState.empty ℕ) "k" 0 11).2.1 "k" 2 22).1 = 11 ∧
    (cachedCall (some 5) 128
      (cachedCall (some 5) 128
        (cachedCall (some 5) 128 (CacheState.empty ℕ) "k" 0 11).2.1 "k" 2 22).2.1
      "k" 6 33).2.2 = true :=
  cached_hit_within_ttl_recompute_after 11 22 33 "k" 5 128 (by norm_num) 0 2 6
    (by norm_num) (by norm_num)

/-! ## Helper lemmas for the token bucket limiter -/

/-- The limiter state after `n ≥ 1` granted calls all issued at time `now` on
the construction date: both buckets down by `n`, the per-minute stamp moved
to `now`, counters at `n`. -/
def bucketAfter (C D : ℕ) (now0 now : ℚ) (d : ℤ) (n : ℕ) : TokenBucketRateLimiter where
  per_minute := C
  per_day := D
  minute_tokens := (C : ℚ) - n
  minute_last_update := now
  day_tokens := (D : ℚ) - n
  day_start := d
  day_last_update := now0
  minute_requests := n
  day_requests := n

lemma acquire_init (C D : ℕ) (now0 now : ℚ) (d : ℤ)
    (hC : 1 ≤ C) (hD : 1 ≤ D) (hidle : now0 ≤ now) :
    (TokenBucketRateLimiter.init C D now0 d).acquire now d =
      (bucketAfter C D now0 now d 1, none) := by
  have hCq : (1 : ℚ) ≤ (C : ℚ) := by exact_mod_cast hC
  have hDq : (1 : ℚ) ≤ (D : ℚ) := by exact_mod_cast hD
  have hmin : min ((C : ℚ)) ((C : ℚ) + (now - now0) * C / 60) = C := by
    apply min_eq_left
    have h0 : 0 ≤ (now - now0) * C / 60 :=
      div_nonneg (mul_nonneg (by linarith) (Nat.cast_nonneg C)) (by norm_num)
    linarith
  have hd : ¬ ((D : ℚ) < 1) := not_lt.mpr hDq
  have hm : ¬ ((C : ℚ) < 1) := not_lt.mpr hCq
  simp [TokenBucketRateLimiter.acquire, TokenBucketRateLimiter.refill_tokens,
    TokenBucketRateLimiter.init, bucketAfter, hmin, hd, hm]

lemma acquire_step (C D : ℕ) (now0 now : ℚ) (d : ℤ) (k : ℕ)
    (hkC : k + 1 ≤ C) (hkD : k + 1 ≤ D) :
    (bucketAfter C D now0 now d k).acquire now d =
      (bucketAfter C D now0 now d (k + 1), none) := by
  have hCq : (k : ℚ) + 1 ≤ (C : ℚ) := by exact_mod_cast hkC
  have hDq : (k : ℚ) + 1 ≤ (D : ℚ) := by exact_mod_cast hkD
  have hmin : min ((C : ℚ)) ((C : ℚ) - k + (now - now) * C / 60) = (C : ℚ) - k := by
    rw [sub_self, zero_mul, zero_div, add_zero]
    apply min_eq_right
    have hk0 : (0 : ℚ) ≤ (k : ℚ) := Nat.cast_nonneg k
    linarith
  have hd : ¬ ((D : ℚ) - k < 1) := not_lt.mpr (by linarith)
  have hm : ¬ ((C : ℚ) - k < 1) := not_lt.mpr (by linarith)
  simp only [TokenBucketRateLimiter.acquire, TokenBucketRateLimiter.refill_tokens,
    bucketAfter, lt_irrefl, if_false, hmin, hd, hm]
  refine congrArg (fun s => (s, (none : Option AcquireError))) ?_
  have h1 : (C : ℚ) - ↑k - 1 = (C : ℚ) - ↑(k + 1) := by push_cast; ring
  have h2 : (D : ℚ) - ↑k - 1 = (D : ℚ) - ↑(k + 1) := by push_cast; ring
  simp [TokenBucketRateLimiter.mk.injEq, h1, h2]

lemma acquireRep_formula (C D : ℕ) (now0 now : ℚ) (d : ℤ)
    (hC : 1 ≤ C) (hidle : now0 ≤ now) :
    ∀ n, 1 ≤ n → n ≤ C → n ≤ D →
      (TokenBucketRateLimiter.init C D now0 d).acquireRep now d n =
        bucketAfter C D now0 now d n := by
  intro n
  induction n with
  | zero => intro h; omega
  | succ k ih =>
    intro _ hnC hnD
    by_cases hk : k = 0
    · subst hk
      rw [TokenBucketRateLimiter.acquireRep, TokenBucketRateLimiter.acquireRep,
        acquire_init C D now0 now d hC (by omega) hidle]
    · rw [TokenBucketRateLimiter.acquireRep, ih (by omega) (by omega) (by omega),
        acquire_step C D now0 now d k hnC hnD]

lemma acquire_at_capacity (C D : ℕ) (now0 now : ℚ) (d : ℤ)
    (hC : 1 ≤ C) (hCD : C ≤ D) :
    ((bucketAfter C D now0 now d C).acquire now d).2 =
      if C + 1 ≤ D then some (.perMinute (60 / C)) else some .daily := by
  have hmin : min ((C : ℚ)) ((C : ℚ) - C + (now - now) * C / 60) = 0 := by
    rw [sub_self, sub_self, zero_mul, zero_div, add_zero]
    exact min_eq_right (by positivity)
  by_cases hday : C + 1 ≤ D
  · have hd : ¬ ((D : ℚ) - C < 1) := by
      rw [not_lt]
      have : (C : ℚ) + 1 ≤ (D : ℚ) := by exact_mod_cast hday
      linarith
    have hm : (0 : ℚ) < 1 := by norm_num
    simp only [TokenBucketRateLimiter.acquire, TokenBucketRateLimiter.refill_tokens,
      bucketAfter, lt_irrefl, if_false, hmin, hd, if_pos hm, if_pos hday]
    norm_num
  · have hDC : D = C := by omega
    subst hDC
    have hd : (D : ℚ) - D < 1 := by norm_num
    simp only [TokenBucketRateLimiter.acquire, TokenBucketRateLimiter.refill_tokens,
      bucketAfter, lt_irrefl, if_false, hmin, hd, if_true, if_neg hday]

/-! ## Claim C1 -/

/-- C1: for every per-minute capacity `C ≥ 1` (the code's refill period is
fixed at 60 seconds) and per-day capacity `D ≥ C`, a freshly constructed
limiter that has then been idle for at least one period admits exactly `C`
consecutive rapid `acquire` calls; the `(C+1)`-th call fails, and whenever
the daily quota is not also exhausted (`C + 1 ≤ D`, as with the scenario's
30/60s against the default 100/day) the failure is the per-minute rate-limit
error carrying wait time `60 / C`, which lies in the interval `(0, 60]`. -/
theorem tokenBucket_admits_exactly_capacity (C D : ℕ) (now0 now : ℚ) (d : ℤ)
    (hC : 1 ≤ C) (hCD : C ≤ D) (hidle : now0 + 60 ≤ now) :
    (∀ k, k < C →
      (((TokenBucketRateLimiter.init C D now0 d).acquireRep now d k).acquire now d).2
        = none) ∧
    (((TokenBucketRateLimiter.init C D now0 d).acquireRep now d C).acquire now d).2
      ≠ none ∧
    (C + 1 ≤ D →
      (((TokenBucketRateLimiter.init C D now0 d).acquireRep now d C).acquire now d).2
        = some (.perMinute (60 / C)) ∧
      (0 : ℚ) < 60 / C ∧ (60 : ℚ) / C ≤ 60) := by
  have hidle' : now0 ≤ now := by linarith
  have hrepC := acquireRep_formula C D now0 now d hC hidle' C hC le_rfl hCD
  refine ⟨?_, ?_, ?_⟩
  · intro k hk
    by_cases hk0 : k = 0
    · subst hk0
      rw [TokenBucketRateLimiter.acquireRep,
        acquire_init C D now0 now d hC (by omega) hidle']
    · rw [acquireRep_formula C D now0 now d hC hidle' k (by omega) (by omega) (by omega),
        acquire_step C D now0 now d k (by omega) (by omega)]
  · rw [hrepC, acquire_at_capacity C D now0 now d hC hCD]
    split_ifs <;> simp
  · intro hday
    have hCq : (1 : ℚ) ≤ (C : ℚ) := by exact_mod_cast hC
    refine ⟨?_, ?_, ?_⟩
    · rw [hrepC, acquire_at_capacity C D now0 now d hC hCD, if_pos hday]
    · positivity
    · rw [div_le_iff₀ (by linarith)]
      linarith

/-- Witness for C1: capacity 30 per minute against the default 100 per day,
constructed at time 0 and first used at time 60 (idle one full period): the
30th rapid call (index 29) is still granted, the 31st raises the per-minute
error with wait time 2 seconds, which lies in (0, 60]. -/
theorem tokenBucket_admits_exactly_capacity_witness :
    (((TokenBucketRateLimiter.init 30 100 0 0).acquireRep 60 0 29).acquire 60 0).2
      = none ∧
    (((TokenBucketRateLimiter.init 30 100 0 0).acquireRep 60 0 30).acquire 60 0).2
      = some (.perMinute (60 / 30)) ∧
    (0 : ℚ) < 60 / 30 ∧ (60 : ℚ) / 30 ≤ 60 := by
  have h := tokenBucket_admits_exactly_capacity 30 100 0 60 0
    (by norm_num) (by norm_num) (by norm_num)
  exact ⟨h.1 29 (by norm_num), (h.2.2 (by norm_num)).1,
    (h.2.2 (by norm_num)).2.1, (h.2.2 (by norm_num)).2.2⟩

/-! ## Claim C2 -/

/-- C2 counterexample: the claim says that on every `acquire` call *each*
configured window is recomputed as
`tokens = min(capacity, tokens + elapsed * capacity / refill_period)`. For
the per-day window this fails: construct a limiter with 2/minute and 1/day at
time 0, grant one call (leaving 0 day tokens), then refill half a day
(43200 s) later on the same date. The claimed formula would restore
`min(1, 0 + 43200 * 1 / 86400) = 1/2` day tokens; the code leaves the day
bucket at 0 (it is only reset on a date change). -/
theorem tokenBucket_day_window_not_refilled_cex :
    ((((TokenBucketRateLimiter.init 2 1 0 0).acquire 0 0).1).refill_tokens 43200 0).day_tokens
      = 0 ∧
    specWindowRefill 1 0 43200 86400 = 1 / 2 ∧
    ((((TokenBucketRateLimiter.init 2 1 0 0).acquire 0 0).1).refill_tokens 43200 0).day_tokens
      ≠ specWindowRefill
          ((((TokenBucketRateLimiter.init 2 1 0 0).acquire 0 0).1).per_day : ℚ)
          (((TokenBucketRateLimiter.init 2 1 0 0).acquire 0 0).1).day_tokens
          (43200 - (((TokenBucketRateLimiter.init 2 1 0 0).acquire 0 0).1).day_last_update)
          86400 := by
  have hstep : (TokenBucketRateLimiter.init 2 1 0 0).acquire 0 0 =
      (⟨2, 1, 1, 0, 0, 0, 0, 1, 1⟩, none) := by
    have h := acquire_init 2 1 0 0 0 (by norm_num) (by norm_num) le_rfl
    rw [h]
    norm_num [bucketAfter]
  rw [hstep]
  refine ⟨?_, ?_, ?_⟩
  · simp [TokenBucketRateLimiter.refill_tokens]
  · rw [specWindowRefill]
    norm_num
  · simp [TokenBucketRateLimiter.refill_tokens, specWindowRefill]
    norm_num

/-- C2 amended: on every `acquire` call only the per-minute window is
recomputed by the refill formula
`tokens = min(per_minute, tokens + elapsed * per_minute / 60)` with
`minute_last_update` set to `now`; the per-day window's tokens and stamp are
left unchanged unless the current date is later than `day_start`, in which
case the day bucket is reset to full capacity. When the per-minute window is
the one that blocks, the raised error carries the wait time
`(1 - tokens) * 60 / per_minute` for the refilled per-minute window; the
daily error carries no wait time. -/
theorem tokenBucket_refill_per_window_amended (s : TokenBucketRateLimiter)
    (now : ℚ) (d : ℤ) :
    (s.refill_tokens now d).minute_tokens =
      specWindowRefill (s.per_minute : ℚ) s.minute_tokens
        (now - s.minute_last_update) 60 ∧
    (s.refill_tokens now d).minute_last_update = now ∧
    (d ≤ s.day_start →
      (s.refill_tokens now d).day_tokens = s.day_tokens ∧
      (s.refill_tokens now d).day_last_update = s.day_last_update) ∧
    (s.day_start < d → (s.refill_tokens now d).day_tokens = (s.per_day : ℚ)) ∧
    (∀ w, (s.acquire now d).2 = some (.perMinute w) →
      w = (1 - (s.refill_tokens now d).minute_tokens) * 60
            / ((s.refill_tokens now d).per_minute : ℚ)) := by
  refine ⟨?_, ?_, ?_, ?_, ?_⟩
  · rw [TokenBucketRateLimiter.refill_tokens, specWindowRefill]
    split_ifs <;> rfl
  · rw [TokenBucketRateLimiter.refill_tokens]
    split_ifs <;> rfl
  · intro hle
    have hnot : ¬ (s.day_start < d) := not_lt.mpr hle
    simp [TokenBucketRateLimiter.refill_tokens, hnot]
  · intro hlt
    simp [TokenBucketRateLimiter.refill_tokens, hlt]
  · intro w hw
    simp only [TokenBucketRateLimiter.acquire] at hw
    by_cases h1 : (s.refill_tokens now d).day_tokens < 1
    · simp [h1] at hw
    · by_cases h2 : (s.refill_tokens now d).minute_tokens < 1
      · simp only [h1, if_false, h2, if_true, Option.some.injEq,
          AcquireError.perMinute.injEq] at hw
        rw [← hw]
      · simp [h1, h2] at hw

/-- Witness for C2 amended: the limiter 30/minute, 100/day constructed at
time 0, refilled at time 10 on the same date: the per-minute window follows
the spec formula, the per-day window is untouched. -/
theorem tokenBucket_refill_per_window_amended_witness :
    ((TokenBucketRateLimiter.init 30 100 0 0).refill_tokens 10 0).minute_tokens =
      specWindowRefill (((TokenBucketRateLimiter.init 30 100 0 0).per_minute : ℚ))
        (TokenBucketRateLimiter.init 30 100 0 0).minute_tokens
        (10 - (TokenBucketRateLimiter.init 30 100 0 0).minute_last_update) 60 ∧
    ((TokenBucketRateLimiter.init 30 100 0 0).refill_tokens 10 0).day_tokens =
      (TokenBucketRateLimiter.init 30 100 0 0).day_tokens :=
  ⟨(tokenBucket_refill_per_window_amended (TokenBucketRateLimiter.init 30 100 0 0) 10 0).1,
    ((tokenBucket_refill_per_window_amended (TokenBucketRateLimiter.init 30 100 0 0) 10 0).2.2.1
      le_rfl).1⟩

/-! ## Helper lemmas for the TTL cache -/

lemma minKeyAux_of_not_lt (bk : String) (bt : ℚ) :
    ∀ rest : List (String × ℚ), (∀ p ∈ rest, ¬ p.2 < bt) →
      minKeyAux bk bt rest = bk := by
  intro rest
  induction rest with
  | nil => intro _; rfl
  | cons p rest ih =>
    intro h
    have hp : ¬ p.2 < bt := h p (List.mem_cons_self p rest)
    cases p with
    | mk pk pt =>
      rw [minKeyAux, if_neg hp]
      exact ih (fun q hq => h q (List.mem_cons_of_mem _ hq))

lemma cachedCall_miss_no_evict {V : Type} (o : Option ℚ) (M : ℕ) (st : CacheState V)
    (key : String) (now : ℚ) (compute : V)
    (hlook : lookupA st.cache key = none)
    (hlookT : lookupA st.cache_times key = none)
    (hlen : ¬ (M ≤ st.cache.length)) :
    cachedCall o M st key now compute =
      (compute, ⟨st.cache ++ [(key, compute)], st.cache_times ++ [(key, now)]⟩,
        true) := by
  rw [cachedCall.eq_def]
  simp only [hlook, if_neg hlen]
  rw [updateA_of_none _ _ _ hlook, updateA_of_none _ _ _ hlookT]

lemma cachedCall_miss_evict {V : Type} (o : Option ℚ) (M : ℕ) (st : CacheState V)
    (key ok : String) (now : ℚ) (compute : V)
    (hlook : lookupA st.cache key = none)
    (hlen : M ≤ st.cache.length)
    (hold : oldestKey st.cache_times = some ok)
    (hE : lookupA (eraseA st.cache ok) key = none)
    (hET : lookupA (eraseA st.cache_times ok) key = none) :
    cachedCall o M st key now compute =
      (compute, ⟨eraseA st.cache ok ++ [(key, compute)],
                 eraseA st.cache_times ok ++ [(key, now)]⟩, true) := by
  rw [cachedCall.eq_def]
  simp only [hlook, hold, if_pos hlen]
  rw [updateA_of_none _ _ _ hE, updateA_of_none _ _ _ hET]

lemma insertKeys_under_capacity {V : Type} (o : Option ℚ) (M : ℕ) (k : ℕ → String)
    (v : ℕ → V) (t : ℕ → ℚ)
    (hk : ∀ i j, i < j → j ≤ M → k i ≠ k j) :
    ∀ n, n ≤ M →
      insertKeys o M k v t n =
        ⟨(List.range n).map (fun i => (k i, v i)),
         (List.range n).map (fun i => (k i, t i))⟩ := by
  intro n
  induction n with
  | zero => intro _; rfl
  | succ n ih =>
    intro hn
    rw [insertKeys, ih (by omega)]
    have hlookC : lookupA ((List.range n).map (fun i => (k i, v i))) (k n) = none := by
      apply lookupA_eq_none_of_forall
      intro p hp
      obtain ⟨i, hi, rfl⟩ := List.mem_map.mp hp
      exact hk i n (List.mem_range.mp hi) (by omega)
    have hlookT : lookupA ((List.range n).map (fun i => (k i, t i))) (k n) = none := by
      apply lookupA_eq_none_of_forall
      intro p hp
      obtain ⟨i, hi, rfl⟩ := List.mem_map.mp hp
      exact hk i n (List.mem_range.mp hi) (by omega)
    have hlen : ¬ (M ≤ ((List.range n).map (fun i => (k i, v i))).length) := by
      simp only [List.length_map, List.length_range]
      omega
    rw [cachedCall_miss_no_evict o M _ _ _ _ hlookC hlookT hlen]
    simp only [List.range_succ, List.map_append, List.map_cons, List.map_nil]

/-! ## Claim C8 -/

/-- C8: for every capacity bound `max_entries ≥ 1`, inserting
`max_entries + 1` distinct keys (at strictly increasing insertion times, as
successive calls produce) into a fresh cache leaves exactly the later
`max_entries` entries in insertion order: the single evicted key is the one
with the oldest insertion time (the first inserted), and the first key is no
longer present. -/
theorem cached_eviction_oldest_inserted {V : Type} (o : Option ℚ) (M : ℕ)
    (k : ℕ → String) (v : ℕ → V) (t : ℕ → ℚ) (hM : 1 ≤ M)
    (hk : ∀ i j, i < j → j ≤ M → k i ≠ k j)
    (ht : ∀ i j, i < j → j ≤ M → t i < t j) :
    insertKeys o M k v t (M + 1) =
      ⟨(List.range M).map (fun i => (k (i + 1), v (i + 1))),
       (List.range M).map (fun i => (k (i + 1), t (i + 1)))⟩ ∧
    (insertKeys o M k v t (M + 1)).cache.length = M ∧
    lookupA (insertKeys o M k v t (M + 1)).cache (k 0) = none := by
  obtain ⟨m, rfl⟩ : ∃ m, M = m + 1 := ⟨M - 1, by omega⟩
  have hmain : insertKeys o (m + 1) k v t (m + 1 + 1) =
      ⟨(List.range (m + 1)).map (fun i => (k (i + 1), v (i + 1))),
       (List.range (m + 1)).map (fun i => (k (i + 1), t (i + 1)))⟩ := by
    rw [insertKeys, insertKeys_under_capacity o (m + 1) k v t hk (m + 1) le_rfl]
    have hdecC : (List.range (m + 1)).map (fun i => (k i, v i)) =
        (k 0, v 0) :: (List.range m).map (fun i => (k (i + 1), v (i + 1))) := by
      rw [List.range_succ_eq_map, List.map_cons, List.map_map]
      rfl
    have hdecT : (List.range (m + 1)).map (fun i => (k i, t i)) =
        (k 0, t 0) :: (List.range m).map (fun i => (k (i + 1), t (i + 1))) := by
      rw [List.range_succ_eq_map, List.map_cons, List.map_map]
      rfl
    have hrestC : lookupA ((List.range m).map (fun i => (k (i + 1), v (i + 1))))
        (k (m + 1)) = none := by
      apply lookupA_eq_none_of_forall
      intro p hp
      obtain ⟨i, hi, rfl⟩ := List.mem_map.mp hp
      exact hk (i + 1) (m + 1) (by have := List.mem_range.mp hi; omega) le_rfl
    have hrestT : lookupA ((List.range m).map (fun i => (k (i + 1), t (i + 1))))
        (k (m + 1)) = none := by
      apply lookupA_eq_none_of_forall
      intro p hp
      obtain ⟨i, hi, rfl⟩ := List.mem_map.mp hp
      exact hk (i + 1) (m + 1) (by have := List.mem_range.mp hi; omega) le_rfl
    rw [hdecC, hdecT]
    have hlook : lookupA ((k 0, v 0) ::
        (List.range m).map (fun i => (k (i + 1), v (i + 1)))) (k (m + 1)) = none := by
      rw [lookupA, if_neg (hk 0 (m + 1) (by omega) le_rfl), hrestC]
    have hlen : m + 1 ≤ (((k 0, v 0) ::
        (List.range m).map (fun i => (k (i + 1), v (i + 1))))).length := by
      simp
    have hold : oldestKey ((k 0, t 0) ::
        (List.range m).map (fun i => (k (i + 1), t (i + 1)))) = some (k 0) := by
      rw [oldestKey]
      congr 1
      apply minKeyAux_of_not_lt
      intro p hp
      obtain ⟨i, hi, rfl⟩ := List.mem_map.mp hp
      have hlt := ht 0 (i + 1) (by omega) (by have := List.mem_range.mp hi; omega)
      exact not_lt.mpr (le_of_lt hlt)
    have herC : eraseA ((k 0, v 0) ::
        (List.range m).map (fun i => (k (i + 1), v (i + 1)))) (k 0) =
        (List.range m).map (fun i => (k (i + 1), v (i + 1))) := by
      rw [eraseA, if_pos rfl]
    have herT : eraseA ((k 0, t 0) ::
        (List.range m).map (fun i => (k (i + 1), t (i + 1)))) (k 0) =
        (List.range m).map (fun i => (k (i + 1), t (i + 1))) := by
      rw [eraseA, if_pos rfl]
    rw [cachedCall_miss_evict o (m + 1) _ _ (k 0) _ _ hlook hlen hold
      (by rw [herC]; exact hrestC) (by rw [herT]; exact hrestT)]
    rw [herC, herT]
    simp only [List.range_succ, List.map_append, List.map_cons, List.map_nil]
  refine ⟨hmain, ?_, ?_⟩
  · rw [hmain]
    simp
  · rw [hmain]
    apply lookupA_eq_none_of_forall
    intro p hp
    obtain ⟨i, hi, rfl⟩ := List.mem_map.mp hp
    exact Ne.symm (hk 0 (i + 1) (by omega) (by have := List.mem_range.mp hi; omega))

/-- Witness for C8: capacity 2, keys "0", "1", "2" inserted at times 0, 1,
2: the cache retains exactly the keys "1" and "2" and key "0" (the oldest
insertion) is evicted. -/
theorem cached_eviction_oldest_inserted_witness :
    insertKeys none 2 (fun i => toString i) (fun i => i) (fun i => (i : ℚ)) 3 =
      ⟨(List.range 2).map (fun i => (toString (i + 1), i + 1)),
       (List.range 2).map (fun i => (toString (i + 1), ((i + 1 : ℕ) : ℚ)))⟩ ∧
    (insertKeys none 2 (fun i => toString i) (fun i => i)
      (fun i => (i : ℚ)) 3).cache.length = 2 ∧
    lookupA (insertKeys none 2 (fun i => toString i) (fun i => i)
      (fun i => (i : ℚ)) 3).cache (toString 0) = none :=
  cached_eviction_oldest_inserted none 2 (fun i => toString i) (fun i => i)
    (fun i => (i : ℚ)) (by norm_num)
    (by
      intro i j hij hj
      interval_cases j <;> interval_cases i <;> decide)
    (by
      intro i j hij _
      show ((i : ℕ) : ℚ) < ((j : ℕ) : ℚ)
      exact_mod_cast hij)

end FootyBot
